import Mathlib

/-!
# RNG Lab outcome engine (`src/index.jsx`, component `RNGGame`)

A shallow embedding of the seeded generator, the spin handler `playOnce`, the
resolution callback, the bounded history and the `stats` snapshot.

Modelling conventions.

* 32-bit integers are held as their unsigned representative in `Nat`
  (`ToUint32` of the JavaScript value).  `| 0`, `>>> 0` and `Math.imul` only
  depend on the value modulo `2^32`, and `^`, `|` act on the bit pattern, so
  each conversion is an explicit `% 4294967296`.
* `rng()` returns `k / 4294967296` for the unsigned `k` computed by
  `mulberry32`.  For an integer `m` with `|m| < 2^21` the product
  `rng() * m` is exact in binary64, hence `Math.floor(rng() * m)` is the
  integer quotient `(k * m) / 4294967296`.
* Configuration numbers and ledger amounts are integers (`Int`).
* The session is a seeded one (non-empty seed string, given by its UTF-16
  code units).  With an empty seed `rng` is `Math.random`, which is not a
  function of the program state and is outside this development.
* The slider handlers store the number their control reports; that number is
  an input of the model, and the bounds written on the controls appear only
  as the predicate `SliderOk`.
* React state is an explicit record; each event runs its handler and then
  `render`, which re-evaluates the `spinAngle` memo when its dependencies
  `[result, numOutcomes]` changed.
-/

namespace RNGGame

/-! ## Seeded generator -/

/-- Conversion `x | 0` / `x >>> 0` on unsigned representatives. -/
def toUint32 (x : Nat) : Nat := x % 4294967296

/-- The 32-bit product `Math.imul(x, y)` on unsigned representatives. -/
def imul (x y : Nat) : Nat := (x * y) % 4294967296

/-- One call of the closure returned by `mulberry32`: the updated captured
variable `a` and the numerator `value` of the returned float
`value / 4294967296`. -/
structure Draw where
  state : Nat
  value : Nat
deriving DecidableEq, Repr

/-- The body of the closure returned by `mulberry32(a)` (lines 25-31). -/
def mulberry32 (a : Nat) : Draw :=
  let a0 := toUint32 a
  let a1 := toUint32 (a0 + 0x6D2B79F5)
  let t1 := imul (a1 ^^^ (a1 >>> 15)) (1 ||| a1)
  let t2 := toUint32 (t1 + imul (t1 ^^^ (t1 >>> 7)) (61 ||| t1)) ^^^ t1
  { state := a1, value := toUint32 (t2 ^^^ (t2 >>> 14)) }

/-- The float returned by `rng()`, as an exact rational. -/
def nextFloat (a : Nat) : ℚ := ((mulberry32 a).value : ℚ) / 4294967296

/-- The numeric seed folded from the seed string (lines 37-38):
`s = (s * 31 + seed.charCodeAt(i)) | 0`. -/
def seedOf (seed : List Nat) : Nat :=
  seed.foldl (fun s c => toUint32 (s * 31 + c)) 0

/-- The captured variable of the generator after `i` calls. -/
def cursor (a : Nat) : Nat → Nat
  | 0 => a
  | i + 1 => (mulberry32 (cursor a i)).state

/-- The numerator of the `i`-th value (counting from 0) returned by a
generator whose captured variable is `a`. -/
def drawAt (a : Nat) (i : Nat) : Nat := (mulberry32 (cursor a i)).value

/-- The sequence of the first `n` values returned by `next()`. -/
def draws (a : Nat) (n : Nat) : List Nat := (List.range n).map (drawAt a)

/-- `Math.floor(x * m)` for `x = k / 4294967296`. -/
def floorMul (k : Nat) (m : Int) : Int := ((k : Int) * m) / 4294967296

/-! ## Data model -/

/-- The `settings` object stored in a ledger entry (line 84). -/
structure Settings where
  numOutcomes : Int
  payoutMultiplier : Int
  seed : List Nat
deriving DecidableEq, Repr

/-- A ledger entry (lines 78-85). -/
structure Entry where
  time : Nat
  roll : Int
  win : Bool
  bet : Int
  payout : Int
  settings : Settings
deriving DecidableEq, Repr

/-- A scheduled `setTimeout` callback of `playOnce` together with the values
its closure captured (lines 70-88). -/
structure Timer where
  duration : Int
  roll : Int
  numOutcomes : Int
  betAmount : Int
  payoutMultiplier : Int
  seed : List Nat
deriving DecidableEq, Repr

/-- Component state: the `useState` cells, the captured variable of the
seeded generator, the scheduled resolution callbacks and the `spinAngle`
memo (its last dependencies and value). -/
structure State where
  numOutcomes : Int
  betAmount : Int
  payoutMultiplier : Int
  seed : List Nat
  history : List Entry
  spinning : Bool
  result : Option Int
  rng : Nat
  timers : List Timer
  memoDeps : Option Int × Int
  spinAngle : ℚ
deriving DecidableEq, Repr

/-- The session once the seed field holds `seed`, before the first spin;
`stored` is the history parsed from storage (lines 8-20, 34-40). -/
def init (seed : List Nat) (stored : List Entry) : State :=
  { numOutcomes := 6, betAmount := 10, payoutMultiplier := 5, seed := seed,
    history := stored, spinning := false, result := none,
    rng := seedOf seed, timers := [], memoDeps := (none, 6), spinAngle := 0 }

/-! ## Handlers -/

/-- The JavaScript `x || d` on integers: `0` is falsy. -/
def jsOr (x d : Int) : Int := if x = 0 then d else x

/-- The `onChange` of the outcomes slider (line 135):
`setNumOutcomes(Number(e.target.value))`; `raw` is the number the control
reports, stored as is. -/
def setNumOutcomes (raw : Int) (s : State) : State :=
  { s with numOutcomes := raw }

/-- The `onChange` of the bet field (line 142):
`setBetAmount(Math.max(1, Number(e.target.value) || 1))`. -/
def setBetAmount (raw : Int) (s : State) : State :=
  { s with betAmount := max 1 (jsOr raw 1) }

/-- The `+10` button (line 143). -/
def addTen (s : State) : State :=
  { s with betAmount := s.betAmount + 10 }

/-- The `onChange` of the multiplier slider (line 149):
`setPayoutMultiplier(Number(e.target.value))`; `raw` is stored as is. -/
def setPayoutMultiplier (raw : Int) (s : State) : State :=
  { s with payoutMultiplier := raw }

/-- The handler `playOnce` (lines 64-89) up to and including `setTimeout`. -/
def playOnce (s : State) : State :=
  if s.spinning then s
  else
    let d := mulberry32 s.rng
    let r := mulberry32 d.state
    { s with
      spinning := true
      result := none
      rng := r.state
      timers := s.timers ++
        [{ duration := 900 + floorMul d.value 900
           roll := floorMul r.value s.numOutcomes + 1
           numOutcomes := s.numOutcomes
           betAmount := s.betAmount
           payoutMultiplier := s.payoutMultiplier
           seed := s.seed }] }

/-- The entry built by the timeout callback (lines 77-85). -/
def mkEntry (now : Nat) (t : Timer) : Entry :=
  let win := decide (t.roll = t.numOutcomes)
  { time := now
    roll := t.roll
    win := win
    bet := t.betAmount
    payout := if win then t.betAmount * t.payoutMultiplier else 0
    settings :=
      { numOutcomes := t.numOutcomes, payoutMultiplier := t.payoutMultiplier, seed := t.seed } }

/-- The `setHistory` updater of line 86: `h => [entry, ...h].slice(0, 200)`. -/
def record (entry : Entry) (h : List Entry) : List Entry :=
  (entry :: h).take 200

/-- The earliest scheduled timeout callback fires (lines 75-88); `now` is
`Date.now()`.  Nothing happens when no callback is scheduled. -/
def resolve (now : Nat) (s : State) : State :=
  match s.timers with
  | [] => s
  | t :: rest =>
    { s with
      result := some t.roll
      history := record (mkEntry now t) s.history
      spinning := false
      timers := rest }

/-- The handler `resetHistory` / the `Clear` button (lines 91-94, 167). -/
def resetHistory (s : State) : State :=
  { s with history := [] }

/-- The `spinAngle` memo (lines 106-114), run during a render: recomputed
exactly when `[result, numOutcomes]` differ from the previous render, and
then drawing twice from the shared generator when `result` is truthy. -/
def render (s : State) : State :=
  if s.memoDeps = (s.result, s.numOutcomes) then s
  else
    match s.result with
    | none => { s with memoDeps := (s.result, s.numOutcomes), spinAngle := 0 }
    | some res =>
      if res = 0 then { s with memoDeps := (s.result, s.numOutcomes), spinAngle := 0 }
      else
        let slice : ℚ := 360 / (s.numOutcomes : ℚ)
        let e := mulberry32 s.rng
        let rndExtra := floorMul e.value 360
        let f := mulberry32 e.state
        { s with
          rng := f.state
          memoDeps := (s.result, s.numOutcomes)
          spinAngle :=
            360 * (3 + (floorMul f.value 6 : ℚ)) + ((res : ℚ) - 1) * slice + slice / 2
              + (rndExtra : ℚ) }

/-- User and timer events of a session. -/
inductive Event where
  | numOutcomes (raw : Int)
  | bet (raw : Int)
  | plusTen
  | multiplier (raw : Int)
  | spin
  | timeout
  | clear
deriving DecidableEq, Repr

/-- The handler of an event; `now` is the clock reading at the event. -/
def handle (now : Nat) (s : State) : Event → State
  | .numOutcomes raw => setNumOutcomes raw s
  | .bet raw => setBetAmount raw s
  | .plusTen => addTen s
  | .multiplier raw => setPayoutMultiplier raw s
  | .spin => playOnce s
  | .timeout => resolve now s
  | .clear => resetHistory s

/-- One event: its handler, then the re-render. -/
def step (now : Nat) (s : State) (e : Event) : State := render (handle now s e)

/-- A session driven by a list of events, each with its clock reading. -/
def run (s : State) : List (Nat × Event) → State
  | [] => s
  | (now, e) :: rest => run (step now s e) rest

/-- The rolls shown by a session, in order: one per timeout that fires. -/
def rollsOf (s : State) : List (Nat × Event) → List Int
  | [] => []
  | (now, e) :: rest =>
    match e, s.timers with
    | .timeout, t :: _ => t.roll :: rollsOf (step now s e) rest
    | _, _ => rollsOf (step now s e) rest

/-! ## Statistics -/

/-- A JavaScript value as `stats.roi` can hold it: a finite number (exact
rational, rounding of the quotient not modelled), `NaN`, an infinity, or
`undefined`. -/
inductive JSValue where
  | num (q : ℚ)
  | nan
  | posInf
  | negInf
  | undefined
deriving DecidableEq, Repr

/-- The JavaScript quotient `a / b` of two integers. -/
def jsDiv (a b : Int) : JSValue :=
  if b = 0 then
    if a = 0 then .nan else if 0 < a then .posInf else .negInf
  else .num ((a : ℚ) / (b : ℚ))

/-- The object returned by the `stats` memo. -/
structure Stats where
  total : Nat
  wins : Nat
  spent : Int
  earned : Int
  roi : JSValue
deriving DecidableEq, Repr

/-- The `stats` memo (lines 97-103). -/
def stats (history : List Entry) : Stats :=
  let total := history.length
  let wins := (history.filter (fun h => h.win)).length
  let spent := history.foldl (fun s h => s + jsOr h.bet 0) 0
  let earned := history.foldl (fun s h => s + jsOr h.payout 0) 0
  { total := total, wins := wins, spent := spent, earned := earned,
    roi := if total ≠ 0 then jsDiv (earned - spent) spent else .num 0 }

/-- The ledger after recording `rs` in order, starting from `h`. -/
def recordAll (rs : List Entry) (h : List Entry) : List Entry :=
  rs.foldl (fun acc r => record r acc) h

/-- The accepted range of a configuration: `numOutcomes` in `[2,12]`,
`betAmount ≥ 1`, `payoutMultiplier` in `[1,20]`. -/
def ConfigOk (n b m : Int) : Prop :=
  2 ≤ n ∧ n ≤ 12 ∧ 1 ≤ b ∧ 1 ≤ m ∧ m ≤ 20

/-- The current configuration and every configuration captured by a
scheduled callback are in range. -/
def InvConfig (s : State) : Prop :=
  ConfigOk s.numOutcomes s.betAmount s.payoutMultiplier ∧
  ∀ t ∈ s.timers, ConfigOk t.numOutcomes t.betAmount t.payoutMultiplier

/-- The current bet and every bet captured by a scheduled callback are at
least 1. -/
def InvBet (s : State) : Prop :=
  1 ≤ s.betAmount ∧ ∀ t ∈ s.timers, 1 ≤ t.betAmount

/-- A slider event reports a value inside the bounds written on its control
(`min={2} max={12}` at line 135, `min={1} max={20}` at line 149); other
events are unconstrained. -/
def SliderOk : Event → Prop
  | .numOutcomes raw => 2 ≤ raw ∧ raw ≤ 12
  | .multiplier raw => 1 ≤ raw ∧ raw ≤ 20
  | _ => True

/-- Every ledger entry has a bet of at least 1. -/
def InvLedger (s : State) : Prop :=
  ∀ e ∈ s.history, 1 ≤ e.bet

/-- The state with its ledger forgotten. -/
def forget (s : State) : State := { s with history := [] }

/-! ## Generator and roll range -/

theorem toUint32_lt (x : Nat) : toUint32 x < 4294967296 :=
  Nat.mod_lt _ (by decide)

theorem mulberry32_value_lt (a : Nat) : (mulberry32 a).value < 4294967296 :=
  toUint32_lt _

theorem floorMul_eq_floor (k : Nat) (m : Int) :
    ⌊((k : ℚ) / 4294967296) * (m : ℚ)⌋ = floorMul k m := by
  have h : ((k : ℚ) / 4294967296) * (m : ℚ)
      = (((k : Int) * m : Int) : ℚ) / ((4294967296 : Nat) : ℚ) := by
    push_cast
    ring
  rw [h, Rat.floor_intCast_div_natCast]
  rfl

theorem floorMul_nonneg (k : Nat) (m : Int) (hm : 0 ≤ m) : 0 ≤ floorMul k m := by
  unfold floorMul
  apply Int.ediv_nonneg
  · exact mul_nonneg (Int.ofNat_nonneg k) hm
  · decide

theorem floorMul_lt (k : Nat) (m : Int) (hk : k < 4294967296) (hm : 0 < m) :
    floorMul k m < m := by
  unfold floorMul
  apply Int.ediv_lt_of_lt_mul (by decide)
  have hk' : (k : Int) < 4294967296 := by exact_mod_cast hk
  nlinarith

/-- C7: for every generator state and every `numOutcomes` in `[2,12]`,
`next()` is `k / 2^32` with `0 ≤ k < 2^32`, so it lies in `[0,1)`, and the
roll `floor(next() * numOutcomes) + 1` is the integer the engine stores and
lies in `[1, numOutcomes]`. -/
theorem next_and_roll_range (a : Nat) (n : Int) (hlo : 2 ≤ n) (hhi : n ≤ 12) :
    (∃ k : Nat, k < 4294967296 ∧ nextFloat a = (k : ℚ) / 4294967296) ∧
    0 ≤ nextFloat a ∧ nextFloat a < 1 ∧
    ⌊nextFloat a * (n : ℚ)⌋ + 1 = floorMul (mulberry32 a).value n + 1 ∧
    1 ≤ ⌊nextFloat a * (n : ℚ)⌋ + 1 ∧ ⌊nextFloat a * (n : ℚ)⌋ + 1 ≤ n := by
  have hk := mulberry32_value_lt a
  have hkq : ((mulberry32 a).value : ℚ) < 4294967296 := by exact_mod_cast hk
  have hfl : ⌊nextFloat a * (n : ℚ)⌋ = floorMul (mulberry32 a).value n :=
    floorMul_eq_floor _ _
  have h0 := floorMul_nonneg (mulberry32 a).value n (by omega)
  have h1 := floorMul_lt (mulberry32 a).value n hk (by omega)
  refine ⟨⟨_, hk, rfl⟩, ?_, ?_, ?_, ?_, ?_⟩
  · unfold nextFloat
    positivity
  · unfold nextFloat
    rw [div_lt_one (by norm_num)]
    exact hkq
  · rw [hfl]
  · rw [hfl]
    omega
  · rw [hfl]
    omega

theorem next_and_roll_range_witness :
    (∃ k : Nat, k < 4294967296 ∧ nextFloat 97 = (k : ℚ) / 4294967296) ∧
    0 ≤ nextFloat 97 ∧ nextFloat 97 < 1 ∧
    ⌊nextFloat 97 * ((6 : Int) : ℚ)⌋ + 1 = floorMul (mulberry32 97).value 6 + 1 ∧
    1 ≤ ⌊nextFloat 97 * ((6 : Int) : ℚ)⌋ + 1 ∧ ⌊nextFloat 97 * ((6 : Int) : ℚ)⌋ + 1 ≤ 6 :=
  next_and_roll_range 97 6 (by decide) (by decide)

/-! ## Ledger entries -/

/-- C1: the entry built when a spin resolves has `win` exactly when the roll
equals `numOutcomes`, `bet = betAmount`, and `payout = betAmount *
payoutMultiplier` on a win and `0` otherwise; this holds for every captured
configuration and roll, and for the entry an idle engine records after
`playOnce` and the timeout. -/
theorem entry_win_bet_payout :
    (∀ (now : Nat) (t : Timer),
      ((mkEntry now t).win = true ↔ t.roll = t.numOutcomes) ∧
      (mkEntry now t).roll = t.roll ∧
      (mkEntry now t).bet = t.betAmount ∧
      (mkEntry now t).payout
        = if (mkEntry now t).win = true then t.betAmount * t.payoutMultiplier else 0) ∧
    (∀ (now : Nat) (s : State), s.spinning = false → s.timers = [] →
      ∃ e : Entry, (resolve now (playOnce s)).history = record e s.history ∧
        e.roll = floorMul (mulberry32 (mulberry32 s.rng).state).value s.numOutcomes + 1 ∧
        (e.win = true ↔ e.roll = s.numOutcomes) ∧
        e.bet = s.betAmount ∧
        e.payout = if e.win = true then s.betAmount * s.payoutMultiplier else 0) ∧
    (∀ (now : Nat) (t : Timer), t.numOutcomes = 6 →
      (t.roll ∈ [1, 2, 3, 4, 5] → (mkEntry now t).win = false ∧ (mkEntry now t).payout = 0) ∧
      (t.roll = 6 → (mkEntry now t).win = true ∧
        (mkEntry now t).payout = t.betAmount * t.payoutMultiplier)) := by
  refine ⟨?_, ?_, ?_⟩
  · intro now t
    simp [mkEntry]
  · intro now s hs ht
    refine ⟨mkEntry now
      { duration := 900 + floorMul (mulberry32 s.rng).value 900
        roll := floorMul (mulberry32 (mulberry32 s.rng).state).value s.numOutcomes + 1
        numOutcomes := s.numOutcomes
        betAmount := s.betAmount
        payoutMultiplier := s.payoutMultiplier
        seed := s.seed }, ?_, ?_⟩
    · simp [resolve, playOnce, hs, ht]
    · simp [mkEntry]
  · intro now t h6
    constructor
    · intro hr
      have hne : t.roll ≠ 6 := by
        simp only [List.mem_cons, List.mem_singleton, List.not_mem_nil, or_false] at hr
        omega
      simp [mkEntry, h6, hne]
    · intro hr
      simp [mkEntry, h6, hr]

theorem entry_win_bet_payout_witness :
    ∃ e : Entry, (resolve 7 (playOnce (init [97] []))).history = record e (init [97] []).history ∧
      e.roll = floorMul (mulberry32 (mulberry32 (init [97] []).rng).state).value
        (init [97] []).numOutcomes + 1 ∧
      (e.win = true ↔ e.roll = (init [97] []).numOutcomes) ∧
      e.bet = (init [97] []).betAmount ∧
      e.payout = if e.win = true then
        (init [97] []).betAmount * (init [97] []).payoutMultiplier else 0 :=
  entry_win_bet_payout.2.1 7 (init [97] []) rfl rfl

/-! ## Bounded ledger -/

theorem record_take (e : Entry) (l : List Entry) :
    record e (l.take 200) = record e l := by
  simp [record, List.take_take]

theorem recordAll_take (rs l : List Entry) :
    recordAll rs (l.take 200) = (rs.reverse ++ l).take 200 := by
  induction rs generalizing l with
  | nil => simp [recordAll]
  | cons r rs ih =>
    have h := ih (r :: l)
    simp only [recordAll, List.foldl_cons] at h ⊢
    rw [record_take]
    simpa [record] using h

/-- C2: recording prepends and truncates to 200 entries: after recording
`rs` in order into the empty ledger, the ledger is the first 200 elements
of `rs` reversed, its length is `min n 200`, and after 250 recordings it
holds the 200 most recent results, newest first (the entry at position `i`
is the recording number `250 - i`). -/
theorem ledger_keeps_newest (rs : List Entry) :
    recordAll rs [] = rs.reverse.take 200 ∧
    (recordAll rs []).length = min rs.length 200 ∧
    (rs.length = 250 →
      (recordAll rs []).length = 200 ∧
      ∀ i : Nat, i < 200 → (recordAll rs [])[i]? = rs[249 - i]?) := by
  have h : recordAll rs [] = rs.reverse.take 200 := by
    simpa using recordAll_take rs []
  refine ⟨h, ?_, ?_⟩
  · rw [h, List.length_take, List.length_reverse, Nat.min_comm]
  · intro hlen
    refine ⟨?_, ?_⟩
    · rw [h, List.length_take, List.length_reverse, hlen]
      rfl
    · intro i hi
      rw [h, List.getElem?_take_of_lt hi, List.getElem?_reverse (by omega), hlen]

theorem ledger_keeps_newest_witness :
    (recordAll ((List.range 250).map
        (fun i => mkEntry i ⟨900, 1, 6, 10, 5, [97]⟩)) []).length = 200 ∧
    ∀ i : Nat, i < 200 →
      (recordAll ((List.range 250).map (fun i => mkEntry i ⟨900, 1, 6, 10, 5, [97]⟩)) [])[i]?
        = ((List.range 250).map (fun i => mkEntry i ⟨900, 1, 6, 10, 5, [97]⟩))[249 - i]? :=
  (ledger_keeps_newest _).2.2 (by simp)

/-! ## Statistics -/

theorem jsOr_zero (x : Int) : jsOr x 0 = x := by
  unfold jsOr
  split <;> simp_all

theorem foldl_add_eq_sum (f : Entry → Int) (l : List Entry) (acc : Int) :
    l.foldl (fun s h => s + f h) acc = acc + (l.map f).sum := by
  induction l generalizing acc with
  | nil => simp
  | cons x xs ih =>
    simp only [List.foldl_cons, List.map_cons, List.sum_cons]
    rw [ih]
    ring

theorem stats_spent (history : List Entry) :
    (stats history).spent = (history.map (fun h => h.bet)).sum := by
  simp [stats, jsOr_zero, foldl_add_eq_sum]

theorem stats_earned (history : List Entry) :
    (stats history).earned = (history.map (fun h => h.payout)).sum := by
  simp [stats, jsOr_zero, foldl_add_eq_sum]

theorem stats_roi (history : List Entry) :
    (stats history).roi =
      if history.length ≠ 0 then
        jsDiv ((stats history).earned - (stats history).spent) (stats history).spent
      else .num 0 := rfl

/-- C8: `stats` returns the number of entries, the number of winning
entries, the sum of the bets, the sum of the payouts and, when the spend is
positive, `roi = (earned - spent) / spent`. -/
theorem stats_fields (history : List Entry) :
    (stats history).total = history.length ∧
    (stats history).wins = history.countP (fun h => h.win) ∧
    (stats history).spent = (history.map (fun h => h.bet)).sum ∧
    (stats history).earned = (history.map (fun h => h.payout)).sum ∧
    (0 < (stats history).spent →
      (stats history).roi =
        .num ((((stats history).earned - (stats history).spent : Int) : ℚ)
          / ((stats history).spent : ℚ))) := by
  refine ⟨rfl, ?_, stats_spent history, stats_earned history, ?_⟩
  · simp [stats, List.countP_eq_length_filter]
  · intro hpos
    have hne : history.length ≠ 0 := by
      intro h0
      have hnil : history = [] := List.length_eq_zero.mp h0
      rw [stats_spent, hnil] at hpos
      simp at hpos
    rw [stats_roi, if_pos hne, jsDiv, if_neg (by omega)]

theorem stats_fields_witness :
    (stats [mkEntry 0 ⟨900, 6, 6, 10, 5, [97]⟩]).roi =
      .num ((((stats [mkEntry 0 ⟨900, 6, 6, 10, 5, [97]⟩]).earned
          - (stats [mkEntry 0 ⟨900, 6, 6, 10, 5, [97]⟩]).spent : Int) : ℚ)
        / ((stats [mkEntry 0 ⟨900, 6, 6, 10, 5, [97]⟩]).spent : ℚ)) :=
  (stats_fields [mkEntry 0 ⟨900, 6, 6, 10, 5, [97]⟩]).2.2.2.2 (by decide)

/-- C3 (as stated, refuted): for the empty ledger `roi` is the number `0`,
not `undefined`; for a one-entry ledger with bet `0` and payout `0` the
spend is zero and `roi` is `NaN`; with bet `0` and payout `5` it is
`+Infinity`. -/
theorem stats_zero_spend_counterexample :
    (stats []).spent = 0 ∧ (stats []).roi = .num 0 ∧ (stats []).roi ≠ .undefined ∧
    (stats [⟨0, 1, false, 0, 0, ⟨6, 5, [97]⟩⟩]).spent = 0 ∧
    (stats [⟨0, 1, false, 0, 0, ⟨6, 5, [97]⟩⟩]).roi = .nan ∧
    (stats [⟨0, 6, true, 0, 5, ⟨6, 5, [97]⟩⟩]).spent = 0 ∧
    (stats [⟨0, 6, true, 0, 5, ⟨6, 5, [97]⟩⟩]).roi = .posInf := by
  refine ⟨rfl, rfl, ?_, rfl, ?_, rfl, ?_⟩
  · rw [stats_roi]
    simp
  · rw [stats_roi]
    simp [stats, jsOr, jsDiv]
  · rw [stats_roi]
    simp [stats, jsOr, jsDiv]

/-- C3 (amended): for every ledger whose total spend is zero `stats`
returns `spent = 0` without raising; `roi` is the number `0` when the ledger
is empty, and otherwise the quotient by zero: `NaN` when `earned = 0`,
`+Infinity` when `earned > 0`, `-Infinity` when `earned < 0`.  It is never
`undefined`. -/
theorem stats_zero_spend (history : List Entry) (h0 : (stats history).spent = 0) :
    (history = [] → (stats history).roi = .num 0) ∧
    (history ≠ [] →
      (stats history).roi =
        if (stats history).earned = 0 then .nan
        else if 0 < (stats history).earned then .posInf else .negInf) ∧
    (stats history).roi ≠ .undefined := by
  have hroi := stats_roi history
  refine ⟨?_, ?_, ?_⟩
  · intro hnil
    rw [hroi, hnil]
    simp
  · intro hne
    have hlen : history.length ≠ 0 := fun h => hne (List.length_eq_zero.mp h)
    rw [hroi, if_pos hlen, h0, jsDiv, if_pos rfl]
    simp
  · rw [hroi, h0, jsDiv, if_pos rfl]
    split
    · split
      · simp
      · split <;> simp
    · simp

theorem stats_zero_spend_witness :
    (stats []).spent = 0 ∧
    ([] = ([] : List Entry) → (stats []).roi = .num 0) ∧
    (stats []).roi ≠ .undefined :=
  ⟨rfl, (stats_zero_spend [] rfl).1, (stats_zero_spend [] rfl).2.2⟩

/-! ## Rendering and the state machine -/

theorem render_fields (s : State) :
    (render s).numOutcomes = s.numOutcomes ∧ (render s).betAmount = s.betAmount ∧
    (render s).payoutMultiplier = s.payoutMultiplier ∧ (render s).seed = s.seed ∧
    (render s).history = s.history ∧ (render s).spinning = s.spinning ∧
    (render s).result = s.result ∧ (render s).timers = s.timers := by
  unfold render
  split
  · simp
  · split
    · simp
    · split <;> simp

theorem render_memoDeps (s : State) :
    (render s).memoDeps = (s.result, s.numOutcomes) := by
  unfold render
  split
  · assumption
  · split
    · simp
    · split <;> simp

theorem render_rng_of_falsy (s : State) (h : s.result = none) : (render s).rng = s.rng := by
  unfold render
  split
  · rfl
  · split
    · rfl
    · simp_all

theorem render_rng_of_truthy (s : State) (r : Int) (h : s.result = some r) (hr : r ≠ 0)
    (hd : s.memoDeps ≠ (s.result, s.numOutcomes)) :
    (render s).rng = cursor s.rng 2 := by
  unfold render
  rw [if_neg hd]
  split
  · simp_all
  · rename_i res hres
    have : res = r := by simp_all
    subst this
    rw [if_neg hr]
    rfl

theorem render_of_deps (s : State) (h : s.memoDeps = (s.result, s.numOutcomes)) :
    render s = s := by
  unfold render
  rw [if_pos h]

theorem render_idem (s : State) : render (render s) = render s := by
  apply render_of_deps
  rw [render_memoDeps, (render_fields s).2.2.2.2.2.2.1, (render_fields s).1]

theorem playOnce_of_spinning (s : State) (h : s.spinning = true) : playOnce s = s := by
  simp [playOnce, h]

theorem playOnce_spinning (s : State) : (playOnce s).spinning = true := by
  unfold playOnce
  split
  · assumption
  · rfl

theorem playOnce_idem (s : State) : playOnce (playOnce s) = playOnce s :=
  playOnce_of_spinning _ (playOnce_spinning s)

theorem step_spin_idem (t1 t2 : Nat) (s : State) :
    step t2 (step t1 s .spin) .spin = step t1 s .spin := by
  simp only [step, handle]
  have hsp : (render (playOnce s)).spinning = true := by
    rw [(render_fields _).2.2.2.2.2.1, playOnce_spinning]
  rw [playOnce_of_spinning _ hsp, render_idem]

/-- C5: a spin request made while a trial is pending changes nothing (engine
state, generator cursor, ledger and scheduled callbacks are all unchanged),
so two requests in a row equal one, and an idle engine that receives two
requests and then the timeout has recorded exactly one entry and has no
callback left: a further timeout adds nothing. -/
theorem spin_while_pending_is_noop :
    (∀ s : State, s.spinning = true → playOnce s = s) ∧
    (∀ (now : Nat) (s : State), s.spinning = true →
      s.memoDeps = (s.result, s.numOutcomes) → step now s .spin = s) ∧
    (∀ (t1 t2 : Nat) (s : State), step t2 (step t1 s .spin) .spin = step t1 s .spin) ∧
    (∀ (t1 t2 t3 t4 : Nat) (s : State), s.spinning = false → s.timers = [] →
      (run s [(t1, .spin), (t2, .spin), (t3, .timeout)]).history
        = (run s [(t1, .spin), (t3, .timeout)]).history ∧
      (∃ e : Entry,
        (run s [(t1, .spin), (t2, .spin), (t3, .timeout)]).history = record e s.history) ∧
      (s.history.length < 200 →
        (run s [(t1, .spin), (t2, .spin), (t3, .timeout)]).history.length
          = s.history.length + 1) ∧
      (run s [(t1, .spin), (t2, .spin), (t3, .timeout)]).timers = [] ∧
      (run s [(t1, .spin), (t2, .spin), (t3, .timeout), (t4, .timeout)]).history
        = (run s [(t1, .spin), (t2, .spin), (t3, .timeout)]).history) := by
  refine ⟨playOnce_of_spinning, ?_, step_spin_idem, ?_⟩
  · intro now s hs hm
    simp only [step, handle]
    rw [playOnce_of_spinning s hs]
    exact render_of_deps s hm
  · intro t1 t2 t3 t4 s hs ht
    have hrun : run s [(t1, .spin), (t2, .spin), (t3, .timeout)]
        = run s [(t1, .spin), (t3, .timeout)] := by
      simp only [run]
      rw [step_spin_idem]
    have hh : (run s [(t1, .spin), (t3, .timeout)]).history
        = record (mkEntry t3
            { duration := 900 + floorMul (mulberry32 s.rng).value 900
              roll := floorMul (mulberry32 (mulberry32 s.rng).state).value s.numOutcomes + 1
              numOutcomes := s.numOutcomes
              betAmount := s.betAmount
              payoutMultiplier := s.payoutMultiplier
              seed := s.seed }) s.history := by
      simp only [run, step, handle]
      rw [(render_fields _).2.2.2.2.1]
      have htm : (render (playOnce s)).timers = (playOnce s).timers := (render_fields _).2.2.2.2.2.2.2
      have hhi : (render (playOnce s)).history = (playOnce s).history := (render_fields _).2.2.2.2.1
      simp [resolve, playOnce, hs, ht] at htm hhi ⊢
      simp [htm, hhi]
    have htm : (run s [(t1, .spin), (t3, .timeout)]).timers = [] := by
      simp only [run, step, handle]
      rw [(render_fields _).2.2.2.2.2.2.2]
      have htm : (render (playOnce s)).timers = (playOnce s).timers := (render_fields _).2.2.2.2.2.2.2
      simp [resolve, playOnce, hs, ht] at htm ⊢
      simp [htm]
    refine ⟨by rw [hrun], ⟨_, by rw [hrun]; exact hh⟩, ?_, by rw [hrun]; exact htm, ?_⟩
    · intro hlen
      rw [hrun, hh]
      simp only [record, List.length_take, List.length_cons]
      omega
    · have h4 : run s [(t1, .spin), (t2, .spin), (t3, .timeout), (t4, .timeout)]
          = step t4 (run s [(t1, .spin), (t2, .spin), (t3, .timeout)]) .timeout := by
        simp only [run]
      rw [h4, hrun]
      simp only [step, handle]
      rw [(render_fields _).2.2.2.2.1]
      simp [resolve, htm]

theorem spin_while_pending_is_noop_witness :
    playOnce (playOnce (init [97] [])) = playOnce (init [97] []) ∧
    (run (init [97] []) [(1, .spin), (2, .spin), (3, .timeout)]).timers = [] ∧
    (run (init [97] []) [(1, .spin), (2, .spin), (3, .timeout)]).history.length
      = (init [97] []).history.length + 1 :=
  ⟨spin_while_pending_is_noop.1 (playOnce (init [97] [])) (playOnce_spinning _),
   (spin_while_pending_is_noop.2.2.2 1 2 3 4 (init [97] []) rfl rfl).2.2.2.1,
   (spin_while_pending_is_noop.2.2.2 1 2 3 4 (init [97] []) rfl rfl).2.2.1 (by decide)⟩

/-! ## Draw order on the shared generator -/

theorem playOnce_idle (s : State) (hs : s.spinning = false) :
    playOnce s =
      { s with
        spinning := true
        result := none
        rng := cursor s.rng 2
        timers := s.timers ++
          [{ duration := 900 + floorMul (drawAt s.rng 0) 900
             roll := floorMul (drawAt s.rng 1) s.numOutcomes + 1
             numOutcomes := s.numOutcomes
             betAmount := s.betAmount
             payoutMultiplier := s.payoutMultiplier
             seed := s.seed }] } := by
  simp [playOnce, hs, cursor, drawAt]

theorem render_spinAngle_of_truthy (s : State) (r : Int) (h : s.result = some r) (hr : r ≠ 0)
    (hd : s.memoDeps ≠ (s.result, s.numOutcomes)) :
    (render s).spinAngle =
      360 * (3 + (floorMul (drawAt s.rng 1) 6 : ℚ))
        + ((r : ℚ) - 1) * (360 / (s.numOutcomes : ℚ)) + 360 / (s.numOutcomes : ℚ) / 2
        + (floorMul (drawAt s.rng 0) 360 : ℚ) := by
  unfold render
  rw [if_neg hd]
  split
  · simp_all
  · rename_i res hres
    have : res = r := by simp_all
    subst this
    rw [if_neg hr]
    rfl

theorem step_spin_idle (now : Nat) (s : State) (hs : s.spinning = false) :
    (step now s .spin).timers = s.timers ++
        [{ duration := 900 + floorMul (drawAt s.rng 0) 900
           roll := floorMul (drawAt s.rng 1) s.numOutcomes + 1
           numOutcomes := s.numOutcomes
           betAmount := s.betAmount
           payoutMultiplier := s.payoutMultiplier
           seed := s.seed }] ∧
    (step now s .spin).rng = cursor s.rng 2 ∧
    (step now s .spin).numOutcomes = s.numOutcomes ∧
    (step now s .spin).result = none ∧
    (step now s .spin).memoDeps = (none, s.numOutcomes) ∧
    (step now s .spin).spinning = true := by
  simp only [step, handle]
  have hf := render_fields (playOnce s)
  have hm := render_memoDeps (playOnce s)
  have hr := render_rng_of_falsy (playOnce s)
  rw [playOnce_idle s hs] at hf hm hr ⊢
  exact ⟨hf.2.2.2.2.2.2.2, hr rfl, hf.1, hf.2.2.2.2.2.2.1, hm, hf.2.2.2.2.2.1⟩

theorem step_timeout_fires (now : Nat) (s : State) (t : Timer) (rest : List Timer)
    (ht : s.timers = t :: rest) (hm : s.memoDeps = (none, s.numOutcomes)) (hr : t.roll ≠ 0) :
    (step now s .timeout).rng = cursor s.rng 2 ∧
    (step now s .timeout).spinAngle =
      360 * (3 + (floorMul (drawAt s.rng 1) 6 : ℚ))
        + ((t.roll : ℚ) - 1) * (360 / (s.numOutcomes : ℚ)) + 360 / (s.numOutcomes : ℚ) / 2
        + (floorMul (drawAt s.rng 0) 360 : ℚ) ∧
    (step now s .timeout).timers = rest ∧
    (step now s .timeout).spinning = false ∧
    (step now s .timeout).numOutcomes = s.numOutcomes := by
  simp only [step, handle]
  have hres : resolve now s =
      { s with
        result := some t.roll
        history := record (mkEntry now t) s.history
        spinning := false
        timers := rest } := by
    simp [resolve, ht]
  have hf := render_fields (resolve now s)
  have h1 := render_rng_of_truthy (resolve now s) t.roll
  have h2 := render_spinAngle_of_truthy (resolve now s) t.roll
  rw [hres] at hf h1 h2 ⊢
  have hd : s.memoDeps ≠ (some t.roll, s.numOutcomes) := by
    rw [hm]
    simp
  exact ⟨h1 rfl hr hd, h2 rfl hr hd, hf.2.2.2.2.2.2.2, hf.2.2.2.2.2.1, hf.1⟩

theorem cursor_add (a : Nat) (i j : Nat) : cursor (cursor a i) j = cursor a (i + j) := by
  induction j with
  | zero => rfl
  | succ j ih =>
    show (mulberry32 (cursor (cursor a i) j)).state = (mulberry32 (cursor a (i + j))).state
    rw [ih]

theorem drawAt_add (a : Nat) (i j : Nat) : drawAt (cursor a i) j = drawAt a (i + j) := by
  unfold drawAt
  rw [cursor_add]

/-- C9 (as stated, refuted): with seed "a" and the default configuration the
first trial's delay is `900 + floor(draw_0 * 900) = 1409`, and after it
resolves the second trial's delay is `1189 = 900 + floor(draw_4 * 900)`,
not `900 + floor(draw_2 * 900) = 1650`. -/
theorem draw_order_counterexample :
    (run (init [97] []) [(0, .spin)]).timers.map Timer.duration
      = [900 + floorMul (drawAt (seedOf [97]) 0) 900] ∧
    (run (init [97] []) [(0, .spin), (1, .timeout), (2, .spin)]).timers.map Timer.duration
      = [1189] ∧
    900 + floorMul (drawAt (seedOf [97]) 2) 900 = 1650 ∧
    900 + floorMul (drawAt (seedOf [97]) 4) 900 = 1189 := by
  decide

/-- C9 (amended): an accepted trial draws twice inside `playOnce`, delay
first and roll second: with the cursor at position `i` the delay is
`900 + floor(draw_i * 900)` and the roll `floor(draw_{i+1} * numOutcomes) + 1`.
When the trial resolves, the re-render of the wheel angle draws twice more
from the same generator (`draw_{i+2}` for the extra offset, `draw_{i+3}` for
the number of turns), so the next trial's delay uses `draw_{i+4}` and its
roll `draw_{i+5}`. -/
theorem draw_order (t1 t2 t3 : Nat) (s : State)
    (hs : s.spinning = false) (ht : s.timers = []) (hn : 0 ≤ s.numOutcomes) :
    (∃ t : Timer, (run s [(t1, .spin)]).timers = [t] ∧
      t.duration = 900 + floorMul (drawAt s.rng 0) 900 ∧
      t.roll = floorMul (drawAt s.rng 1) s.numOutcomes + 1) ∧
    (run s [(t1, .spin)]).rng = cursor s.rng 2 ∧
    (run s [(t1, .spin), (t2, .timeout)]).rng = cursor s.rng 4 ∧
    (run s [(t1, .spin), (t2, .timeout)]).spinAngle =
      360 * (3 + (floorMul (drawAt s.rng 3) 6 : ℚ))
        + (((floorMul (drawAt s.rng 1) s.numOutcomes + 1 : Int) : ℚ) - 1)
          * (360 / (s.numOutcomes : ℚ))
        + 360 / (s.numOutcomes : ℚ) / 2
        + (floorMul (drawAt s.rng 2) 360 : ℚ) ∧
    (∃ t : Timer, (run s [(t1, .spin), (t2, .timeout), (t3, .spin)]).timers = [t] ∧
      t.duration = 900 + floorMul (drawAt s.rng 4) 900 ∧
      t.roll = floorMul (drawAt s.rng 5) s.numOutcomes + 1) ∧
    (run s [(t1, .spin), (t2, .timeout), (t3, .spin)]).rng = cursor s.rng 6 := by
  obtain ⟨a1, a2, a3, -, a5, -⟩ := step_spin_idle t1 s hs
  rw [ht, List.nil_append] at a1
  have hroll : floorMul (drawAt s.rng 1) s.numOutcomes + 1 ≠ 0 := by
    have := floorMul_nonneg (drawAt s.rng 1) s.numOutcomes hn
    omega
  rw [← a3] at a5
  obtain ⟨b1, b2, b3, b4, b5⟩ := step_timeout_fires t2 (step t1 s .spin) _ _ a1 a5 hroll
  rw [a2, cursor_add] at b1
  rw [a2, a3, drawAt_add, drawAt_add] at b2
  obtain ⟨c1, c2, -, -, -, -⟩ := step_spin_idle t3 (step t2 (step t1 s .spin) .timeout) b4
  rw [b3, List.nil_append, b1, b5, a3, drawAt_add, drawAt_add] at c1
  rw [b1, cursor_add] at c2
  refine ⟨⟨_, a1, rfl, rfl⟩, a2, b1, b2, ⟨_, c1, rfl, rfl⟩, c2⟩

theorem draw_order_witness :
    (∃ t : Timer, (run (init [97] []) [(0, .spin), (1, .timeout), (2, .spin)]).timers = [t] ∧
      t.duration = 900 + floorMul (drawAt (init [97] []).rng 4) 900 ∧
      t.roll = floorMul (drawAt (init [97] []).rng 5) (init [97] []).numOutcomes + 1) ∧
    (run (init [97] []) [(0, .spin), (1, .timeout), (2, .spin)]).rng
      = cursor (init [97] []).rng 6 :=
  ⟨(draw_order 0 1 2 (init [97] []) rfl rfl (by decide)).2.2.2.2.1,
   (draw_order 0 1 2 (init [97] []) rfl rfl (by decide)).2.2.2.2.2⟩

/-! ## Configuration range and bets along a session -/

theorem setBetAmount_ge (raw : Int) (s : State) : 1 ≤ (setBetAmount raw s).betAmount :=
  le_max_left _ _

theorem handle_invBet (now : Nat) (s : State) (e : Event) (h : InvBet s) :
    InvBet (handle now s e) := by
  obtain ⟨hb, ht⟩ := h
  cases e with
  | numOutcomes raw => exact ⟨hb, ht⟩
  | bet raw => exact ⟨setBetAmount_ge raw s, ht⟩
  | plusTen =>
    refine ⟨?_, ht⟩
    show 1 ≤ s.betAmount + 10
    omega
  | multiplier raw => exact ⟨hb, ht⟩
  | spin =>
    show InvBet (playOnce s)
    by_cases hs : s.spinning = true
    · rw [playOnce_of_spinning s hs]
      exact ⟨hb, ht⟩
    · rw [playOnce_idle s (by simpa using hs)]
      refine ⟨hb, ?_⟩
      intro t hmem
      simp only [List.mem_append, List.mem_singleton] at hmem
      rcases hmem with hmem | rfl
      · exact ht t hmem
      · exact hb
  | timeout =>
    show InvBet (resolve now s)
    unfold resolve
    split
    · exact ⟨hb, ht⟩
    · rename_i t rest heq
      refine ⟨hb, ?_⟩
      intro u hu
      exact ht u (by rw [heq]; exact List.mem_cons_of_mem _ hu)
  | clear => exact ⟨hb, ht⟩

theorem handle_invConfig (now : Nat) (s : State) (e : Event) (he : SliderOk e)
    (h : InvConfig s) : InvConfig (handle now s e) := by
  obtain ⟨⟨h1, h2, h3, h4, h5⟩, ht⟩ := h
  cases e with
  | numOutcomes raw => exact ⟨⟨he.1, he.2, h3, h4, h5⟩, ht⟩
  | bet raw => exact ⟨⟨h1, h2, setBetAmount_ge raw s, h4, h5⟩, ht⟩
  | plusTen =>
    refine ⟨⟨h1, h2, ?_, h4, h5⟩, ht⟩
    show 1 ≤ s.betAmount + 10
    omega
  | multiplier raw => exact ⟨⟨h1, h2, h3, he.1, he.2⟩, ht⟩
  | spin =>
    show InvConfig (playOnce s)
    by_cases hs : s.spinning = true
    · rw [playOnce_of_spinning s hs]
      exact ⟨⟨h1, h2, h3, h4, h5⟩, ht⟩
    · rw [playOnce_idle s (by simpa using hs)]
      refine ⟨⟨h1, h2, h3, h4, h5⟩, ?_⟩
      intro t hmem
      simp only [List.mem_append, List.mem_singleton] at hmem
      rcases hmem with hmem | rfl
      · exact ht t hmem
      · exact ⟨h1, h2, h3, h4, h5⟩
  | timeout =>
    show InvConfig (resolve now s)
    unfold resolve
    split
    · exact ⟨⟨h1, h2, h3, h4, h5⟩, ht⟩
    · rename_i t rest heq
      refine ⟨⟨h1, h2, h3, h4, h5⟩, ?_⟩
      intro u hu
      exact ht u (by rw [heq]; exact List.mem_cons_of_mem _ hu)
  | clear => exact ⟨⟨h1, h2, h3, h4, h5⟩, ht⟩

theorem handle_invLedger (now : Nat) (s : State) (e : Event) (hc : InvBet s)
    (h : InvLedger s) : InvLedger (handle now s e) := by
  cases e with
  | numOutcomes raw => exact h
  | bet raw => exact h
  | plusTen => exact h
  | multiplier raw => exact h
  | spin =>
    show InvLedger (playOnce s)
    by_cases hs : s.spinning = true
    · rw [playOnce_of_spinning s hs]
      exact h
    · rw [playOnce_idle s (by simpa using hs)]
      exact h
  | timeout =>
    show InvLedger (resolve now s)
    unfold resolve
    split
    · exact h
    · rename_i t rest heq
      intro x hx
      have hx' : x ∈ mkEntry now t :: s.history := List.mem_of_mem_take hx
      rcases List.mem_cons.mp hx' with rfl | hmem
      · exact hc.2 t (by rw [heq]; exact List.mem_cons_self _ _)
      · exact h x hmem
  | clear =>
    intro x hx
    have hx' : x ∈ ([] : List Entry) := hx
    exact absurd hx' (List.not_mem_nil _)

theorem step_invBet (now : Nat) (s : State) (e : Event) (h : InvBet s) :
    InvBet (step now s e) := by
  have hh := handle_invBet now s e h
  have hf := render_fields (handle now s e)
  unfold step InvBet
  rw [hf.2.1, hf.2.2.2.2.2.2.2]
  exact hh

theorem step_invConfig (now : Nat) (s : State) (e : Event) (he : SliderOk e)
    (h : InvConfig s) : InvConfig (step now s e) := by
  have hh := handle_invConfig now s e he h
  have hf := render_fields (handle now s e)
  unfold step InvConfig
  rw [hf.1, hf.2.1, hf.2.2.1, hf.2.2.2.2.2.2.2]
  exact hh

theorem step_invLedger (now : Nat) (s : State) (e : Event) (hc : InvBet s)
    (h : InvLedger s) : InvLedger (step now s e) := by
  have hh := handle_invLedger now s e hc h
  have hf := render_fields (handle now s e)
  unfold step InvLedger
  rw [hf.2.2.2.2.1]
  exact hh

theorem run_invBet (s : State) (evs : List (Nat × Event)) (hc : InvBet s) :
    InvBet (run s evs) ∧ (InvLedger s → InvLedger (run s evs)) := by
  induction evs generalizing s with
  | nil => exact ⟨hc, id⟩
  | cons x rest ih =>
    obtain ⟨now, e⟩ := x
    have h := ih (step now s e) (step_invBet now s e hc)
    exact ⟨h.1, fun hl => h.2 (step_invLedger now s e hc hl)⟩

theorem run_invConfig (s : State) (evs : List (Nat × Event)) (hc : InvConfig s)
    (hev : ∀ x ∈ evs, SliderOk x.2) : InvConfig (run s evs) := by
  induction evs generalizing s with
  | nil => exact hc
  | cons x rest ih =>
    obtain ⟨now, e⟩ := x
    have he : SliderOk e := hev (now, e) (List.mem_cons_self _ _)
    exact ih (step now s e) (step_invConfig now s e he hc)
      (fun y hy => hev y (List.mem_cons_of_mem _ hy))

theorem init_invConfig (seed : List Nat) (stored : List Entry) :
    InvConfig (init seed stored) := by
  refine ⟨?_, ?_⟩
  · show ConfigOk 6 10 5
    unfold ConfigOk
    decide
  · intro t ht
    exact absurd ht (List.not_mem_nil _)

theorem init_invBet (seed : List Nat) (stored : List Entry) :
    InvBet (init seed stored) := by
  refine ⟨?_, ?_⟩
  · show (1 : Int) ≤ 10
    decide
  · intro t ht
    exact absurd ht (List.not_mem_nil _)

/-- C6 (as stated, refuted): the slider handlers store the reported number
unclamped and `playOnce` captures it as is: after the outcomes handler
receives 50 (and the multiplier handler 99) the accepted trial has
`numOutcomes = 50`, not 12, and `payoutMultiplier = 99`, so its
configuration is outside `[2,12]` and `[1,20]`. -/
theorem config_clamp_counterexample :
    (playOnce (setNumOutcomes 50 (init [97] []))).timers.map Timer.numOutcomes = [50] ∧
    (playOnce (setNumOutcomes 50 (init [97] []))).timers.map Timer.numOutcomes ≠ [12] ∧
    (playOnce (setPayoutMultiplier 99 (init [97] []))).timers.map Timer.payoutMultiplier
      = [99] ∧
    ¬ ConfigOk (setNumOutcomes 50 (init [97] [])).numOutcomes
        (setNumOutcomes 50 (init [97] [])).betAmount
        (setNumOutcomes 50 (init [97] [])).payoutMultiplier := by
  refine ⟨by decide, by decide, by decide, ?_⟩
  intro h
  exact absurd h.2.1 (by decide)

/-- C6 (amended): only the bet is clamped in code: a typed bet `v` becomes
`max(1, v || 1)`, so `betAmount ≥ 1` and `-5` is accepted as `1`.
`numOutcomes` and `payoutMultiplier` are stored exactly as the sliders
report them, and the accepted trial captures the stored configuration
unchanged.  Hence the trial's configuration is in `[2,12]`, `≥ 1`, `[1,20]`
whenever the reported slider values are within the bounds written on the
controls, and along every session of such events the current and every
pending configuration stay in range; the bet bound holds along every
session. -/
theorem config_as_reported :
    (∀ (nRaw bRaw mRaw : Int) (s : State), s.spinning = false →
      ∃ t : Timer,
        (playOnce (setPayoutMultiplier mRaw (setBetAmount bRaw (setNumOutcomes nRaw s)))).timers
          = s.timers ++ [t] ∧
        t.numOutcomes = nRaw ∧ t.payoutMultiplier = mRaw ∧
        t.betAmount = max 1 (jsOr bRaw 1) ∧ 1 ≤ t.betAmount ∧
        (2 ≤ nRaw → nRaw ≤ 12 → 1 ≤ mRaw → mRaw ≤ 20 →
          ConfigOk t.numOutcomes t.betAmount t.payoutMultiplier)) ∧
    (∀ s : State, (setBetAmount (-5) s).betAmount = 1) ∧
    (∀ (seed : List Nat) (stored : List Entry) (evs : List (Nat × Event)), seed ≠ [] →
      (∀ x ∈ evs, SliderOk x.2) → InvConfig (run (init seed stored) evs)) ∧
    (∀ (seed : List Nat) (stored : List Entry) (evs : List (Nat × Event)), seed ≠ [] →
      InvBet (run (init seed stored) evs)) := by
  refine ⟨?_, ?_, ?_, ?_⟩
  · intro nRaw bRaw mRaw s hs
    have hs' : (setPayoutMultiplier mRaw (setBetAmount bRaw (setNumOutcomes nRaw s))).spinning
        = false := hs
    rw [playOnce_idle _ hs']
    refine ⟨_, rfl, rfl, rfl, rfl, le_max_left _ _, ?_⟩
    intro h1 h2 h3 h4
    exact ⟨h1, h2, le_max_left _ _, h3, h4⟩
  · intro s
    show max 1 (jsOr (-5) 1) = 1
    decide
  · intro seed stored evs _ hev
    exact run_invConfig _ evs (init_invConfig seed stored) hev
  · intro seed stored evs _
    exact (run_invBet _ evs (init_invBet seed stored)).1

theorem config_as_reported_witness :
    (∃ t : Timer,
      (playOnce (setPayoutMultiplier 20 (setBetAmount (-5)
        (setNumOutcomes 12 (init [97] []))))).timers = (init [97] []).timers ++ [t] ∧
      t.numOutcomes = 12 ∧ t.payoutMultiplier = 20 ∧
      t.betAmount = max 1 (jsOr (-5) 1) ∧ 1 ≤ t.betAmount ∧
      (2 ≤ (12 : Int) → (12 : Int) ≤ 12 → 1 ≤ (20 : Int) → (20 : Int) ≤ 20 →
        ConfigOk t.numOutcomes t.betAmount t.payoutMultiplier)) ∧
    InvConfig (run (init [97] []) [(0, .numOutcomes 12), (1, .bet (-5)), (2, .spin)]) ∧
    InvBet (run (init [97] []) [(0, .numOutcomes 50), (1, .bet (-5)), (2, .spin)]) :=
  ⟨config_as_reported.1 12 (-5) 20 (init [97] []) rfl,
   config_as_reported.2.2.1 [97] [] _ (by decide)
     (by
       intro x hx
       simp only [List.mem_cons, List.mem_singleton, List.not_mem_nil, or_false] at hx
       rcases hx with rfl | rfl | rfl
       · exact ⟨by decide, by decide⟩
       · trivial
       · trivial),
   config_as_reported.2.2.2 [97] [] _ (by decide)⟩

theorem sum_bets_pos (l : List Entry) (h : ∀ e ∈ l, 1 ≤ e.bet) (hne : l ≠ []) :
    0 < (l.map (fun e => e.bet)).sum := by
  induction l with
  | nil => exact absurd rfl hne
  | cons x xs ih =>
    have hx : 1 ≤ x.bet := h x (List.mem_cons_self _ _)
    simp only [List.map_cons, List.sum_cons]
    by_cases hxs : xs = []
    · subst hxs
      simp
      omega
    · have := ih (fun e he => h e (List.mem_cons_of_mem _ he)) hxs
      omega

/-- C10: starting from the default bet of 10 and an empty ledger, every
session of bet edits, `+10` presses, slider moves, spins, timeouts and
clears keeps `betAmount ≥ 1` and every ledger entry's bet `≥ 1`; hence the
ledger is non-empty exactly when `spent > 0`, `stats` divides only by a
non-zero spend, and `roi` is a finite number. -/
theorem bets_stay_positive (seed : List Nat) (evs : List (Nat × Event)) (_hseed : seed ≠ []) :
    1 ≤ (run (init seed []) evs).betAmount ∧
    (∀ e ∈ (run (init seed []) evs).history, 1 ≤ e.bet) ∧
    ((run (init seed []) evs).history ≠ [] ↔
      0 < (stats (run (init seed []) evs).history).spent) ∧
    ((stats (run (init seed []) evs).history).total ≠ 0 →
      (stats (run (init seed []) evs).history).spent ≠ 0) ∧
    (∃ q : ℚ, (stats (run (init seed []) evs).history).roi = .num q) := by
  have hinv := run_invBet (init seed []) evs (init_invBet seed [])
  have hl : InvLedger (run (init seed []) evs) := by
    apply hinv.2
    intro e he
    simp [init] at he
  have hpos : (run (init seed []) evs).history ≠ [] →
      0 < (stats (run (init seed []) evs).history).spent := by
    intro hne
    rw [stats_spent]
    exact sum_bets_pos _ hl hne
  refine ⟨hinv.1.1, hl, ⟨hpos, ?_⟩, ?_, ?_⟩
  · intro h hnil
    rw [hnil] at h
    exact absurd h (by decide)
  · intro ht
    have hne : (run (init seed []) evs).history ≠ [] := by
      intro hnil
      apply ht
      rw [hnil]
      rfl
    have := hpos hne
    omega
  · rw [stats_roi]
    by_cases hlen : (run (init seed []) evs).history.length ≠ 0
    · have hne : (run (init seed []) evs).history ≠ [] := by
        intro hnil
        apply hlen
        rw [hnil]
        rfl
      have := hpos hne
      rw [if_pos hlen, jsDiv, if_neg (by omega)]
      exact ⟨_, rfl⟩
    · rw [if_neg hlen]
      exact ⟨_, rfl⟩

theorem bets_stay_positive_witness :
    1 ≤ (run (init [97] []) [(0, .bet (-5)), (1, .spin), (2, .plusTen), (3, .timeout)]).betAmount ∧
    (∀ e ∈ (run (init [97] []) [(0, .bet (-5)), (1, .spin), (2, .plusTen), (3, .timeout)]).history,
      1 ≤ e.bet) :=
  ⟨(bets_stay_positive [97] _ (by decide)).1, (bets_stay_positive [97] _ (by decide)).2.1⟩

/-! ## Seeded replay -/

theorem forget_render (s : State) : forget (render s) = render (forget s) := by
  unfold render forget
  simp only
  split
  · rfl
  · split
    · rfl
    · split <;> rfl

theorem forget_handle (now now' : Nat) (s : State) (e : Event) :
    forget (handle now s e) = forget (handle now' (forget s) e) := by
  cases e with
  | numOutcomes raw => rfl
  | bet raw => rfl
  | plusTen => rfl
  | multiplier raw => rfl
  | spin =>
    show forget (playOnce s) = forget (playOnce (forget s))
    by_cases hs : s.spinning = true
    · have hs' : (forget s).spinning = true := hs
      rw [playOnce_of_spinning s hs, playOnce_of_spinning _ hs']
      rfl
    · have h1 : s.spinning = false := by simpa using hs
      have h2 : (forget s).spinning = false := h1
      rw [playOnce_idle s h1, playOnce_idle _ h2]
      rfl
  | timeout =>
    show forget (resolve now s) = forget (resolve now' (forget s))
    cases ht : s.timers with
    | nil =>
      have ht' : (forget s).timers = [] := ht
      simp only [resolve, ht, ht']
      rfl
    | cons t rest =>
      have ht' : (forget s).timers = t :: rest := ht
      simp only [resolve, ht, ht']
      rfl
  | clear => rfl

theorem forget_step (now now' : Nat) (s s' : State) (e : Event) (h : forget s = forget s') :
    forget (step now s e) = forget (step now' s' e) := by
  unfold step
  rw [forget_render, forget_render, forget_handle now 0 s e, forget_handle now' 0 s' e, h]

theorem forget_timers (s s' : State) (h : forget s = forget s') : s.timers = s'.timers := by
  have h' : (forget s).timers = (forget s').timers := by rw [h]
  exact h'

theorem rollsOf_forget (evs evs' : List (Nat × Event)) (s s' : State)
    (h : forget s = forget s') (hreq : evs.map Prod.snd = evs'.map Prod.snd) :
    rollsOf s evs = rollsOf s' evs' := by
  induction evs generalizing evs' s s' with
  | nil =>
    cases evs' with
    | nil => rfl
    | cons y ys => simp at hreq
  | cons x xs ih =>
    cases evs' with
    | nil => simp at hreq
    | cons y ys =>
      obtain ⟨now, e⟩ := x
      obtain ⟨now', e'⟩ := y
      simp only [List.map_cons, List.cons.injEq] at hreq
      obtain ⟨he, hrest⟩ := hreq
      subst he
      have hstep := ih ys (step now s e) (step now' s' e) (forget_step now now' s s' e h) hrest
      have htm := forget_timers s s' h
      unfold rollsOf
      rw [← htm]
      split
      · rw [hstep]
      · rw [hstep]

/-- C4: for a non-empty seed string, two engine instances seeded with it and
driven by the same requests show identical sequences of rolls, whatever
ledger each loaded from storage and whatever its clock reads; and two
sources built from the same seed string return identical `next()`
sequences. -/
theorem seeded_rolls_deterministic (seed : List Nat) (_hseed : seed ≠ [])
    (stored stored' : List Entry) (evs evs' : List (Nat × Event))
    (hreq : evs.map Prod.snd = evs'.map Prod.snd) :
    rollsOf (init seed stored) evs = rollsOf (init seed stored') evs' ∧
    (run (init seed stored) evs).rng = (run (init seed stored') evs').rng ∧
    ∀ (seed' : List Nat) (n : Nat), seed' = seed →
      draws (seedOf seed') n = draws (seedOf seed) n := by
  refine ⟨rollsOf_forget evs evs' _ _ rfl hreq, ?_, ?_⟩
  · have key : ∀ (l l' : List (Nat × Event)) (s s' : State), forget s = forget s' →
        l.map Prod.snd = l'.map Prod.snd → forget (run s l) = forget (run s' l') := by
      intro l
      induction l with
      | nil =>
        intro l' s s' h hl
        cases l' with
        | nil => exact h
        | cons y ys => simp at hl
      | cons x xs ih =>
        intro l' s s' h hl
        cases l' with
        | nil => simp at hl
        | cons y ys =>
          obtain ⟨now, e⟩ := x
          obtain ⟨now', e'⟩ := y
          simp only [List.map_cons, List.cons.injEq] at hl
          obtain ⟨he, hrest⟩ := hl
          subst he
          exact ih ys _ _ (forget_step now now' s s' e h) hrest
    have hk := key evs evs' (init seed stored) (init seed stored') rfl hreq
    have hk' : (forget (run (init seed stored) evs)).rng
        = (forget (run (init seed stored') evs')).rng := by rw [hk]
    exact hk'
  · intro seed' n h
    rw [h]

theorem seeded_rolls_deterministic_witness :
    rollsOf (init [97] []) [(0, .spin), (1, .timeout), (2, .spin), (3, .timeout)]
      = rollsOf (init [97] [mkEntry 5 ⟨900, 6, 6, 10, 5, [97]⟩])
          [(10, .spin), (20, .timeout), (30, .spin), (40, .timeout)] :=
  (seeded_rolls_deterministic [97] (by decide) [] [mkEntry 5 ⟨900, 6, 6, 10, 5, [97]⟩]
    [(0, .spin), (1, .timeout), (2, .spin), (3, .timeout)]
    [(10, .spin), (20, .timeout), (30, .spin), (40, .timeout)] rfl).1

end RNGGame
